import Mathlib

/-!
Verification of the concurrent Drive-mirroring program (`src/main.py`).

The embedding models:
* Python `pathlib` path operations (`Path.stem`, `Path.suffix`,
  `Path.with_stem`, `Path.with_suffix`, `str(Path(...))`, `os.path.join`)
  on POSIX-style paths represented as lists of characters;
* `sanitize_path` (main.py lines 138-145);
* `download_file` (lines 148-181) as a state-transformer over an explicit
  filesystem, parameterized by an environment describing where the external
  calls (temp-file open, chunked fetch, rename) fail;
* `JobExecutor.submit_job` / `wait_completion` (lines 19-40) as a transition
  system over the tracked futures list, parameterized by the completed set
  reported by each `concurrent.futures.wait` call;
* the traversal `list_all_files` (lines 94-136) over a model of the remote
  folder tree;
* the failure-log writers `write_failed_folder` / `write_failed_downloads`
  (lines 78-91) as event traces.
-/

/-- Python strings are sequences of characters. -/
abbrev Str := List Char

deriving instance DecidableEq for Except

/-- `s.split(sep)` for a single-character separator, Python semantics:
`"".split("/") = [""]`, `"/".split("/") = ["", ""]`. -/
def splitOnChar (sep : Char) : Str → List Str
  | [] => [[]]
  | c :: rest =>
    let r := splitOnChar sep rest
    if c = sep then [] :: r
    else
      match r with
      | h :: t => (c :: h) :: t
      | [] => [[c]]

/-- A parsed `pathlib.PurePosixPath`: whether it is absolute, and the parsed
components (empty and `"."` components are dropped by `pathlib`). -/
structure PyPath where
  absolute : Bool
  tail : List Str
deriving DecidableEq, Repr

/-- `pathlib.PurePosixPath(s)`: absolute iff the string starts with `/`;
components are the slash-separated pieces with `""` and `"."` removed. -/
def parsePath (s : Str) : PyPath :=
  ⟨decide (s.take 1 = ['/']),
   (splitOnChar '/' s).filter (fun c => decide (c ≠ [] ∧ c ≠ ['.']))⟩

/-- `Path.name`: the final component, or `""` when there is none. -/
def PyPath.name (p : PyPath) : Str := p.tail.getLast?.getD []

/-- Index of the last `'.'` in a name, if any. -/
def lastDotIdx (n : Str) : Option Nat :=
  (n.reverse.findIdx? (fun c => c == '.')).map (fun j => n.length - 1 - j)

/-- `Path.suffix`: the part of the name from its last dot on, provided that
dot is neither the first nor the last character (CPython: `0 < i < len-1`). -/
def PyPath.suffix (p : PyPath) : Str :=
  match lastDotIdx p.name with
  | some i => if 0 < i ∧ i < p.name.length - 1 then p.name.drop i else []
  | none => []

/-- `Path.stem`: the name with `Path.suffix` removed. -/
def PyPath.stem (p : PyPath) : Str :=
  match lastDotIdx p.name with
  | some i => if 0 < i ∧ i < p.name.length - 1 then p.name.take i else p.name
  | none => p.name

/-- `Path.with_name(nm)`: raises `ValueError` when the path has no final
component, or when the new name is empty, contains a separator, or is `"."`. -/
def PyPath.withName (p : PyPath) (nm : Str) : Except Str PyPath :=
  if p.name = [] then .error "empty name".toList
  else if nm = [] ∨ '/' ∈ nm ∨ nm = ['.'] then .error "invalid name".toList
  else .ok ⟨p.absolute, p.tail.dropLast ++ [nm]⟩

/-- `Path.with_stem(st)` = `with_name(st + suffix)`. -/
def PyPath.withStem (p : PyPath) (st : Str) : Except Str PyPath :=
  p.withName (st ++ p.suffix)

/-- `Path.with_suffix(sfx)`: validates the new suffix, requires a nonempty
name, strips the old suffix (if any) and appends the new one. -/
def PyPath.withSuffix (p : PyPath) (sfx : Str) : Except Str PyPath :=
  if '/' ∈ sfx then .error "invalid suffix".toList
  else if (sfx ≠ [] ∧ sfx.take 1 ≠ ['.']) ∨ sfx = ['.'] then .error "invalid suffix".toList
  else if p.name = [] then .error "empty name".toList
  else
    let nm := (if p.suffix ≠ [] then p.name.take (p.name.length - p.suffix.length) else p.name) ++ sfx
    .ok ⟨p.absolute, p.tail.dropLast ++ [nm]⟩

/-- Join of path components with `/`, used to render a parsed path. -/
def renderTail : List Str → Str
  | [] => []
  | [x] => x
  | x :: y :: t => x ++ '/' :: renderTail (y :: t)

/-- `str(Path(...))`: `"/"`-joined components, with a leading `/` when
absolute; the empty relative path prints as `"."`. -/
def renderPath (p : PyPath) : Str :=
  if p.absolute then '/' :: renderTail p.tail
  else if p.tail = [] then ['.']
  else renderTail p.tail

/-- `os.path.join(a, b)` for POSIX paths (two arguments, as used by the
traversal): an absolute `b` replaces `a`; otherwise a separator is inserted
unless `a` is empty or already ends with one. -/
def joinPath (a b : Str) : Str :=
  if b.take 1 = ['/'] then b
  else if a = [] ∨ a.getLast? = some '/' then a ++ b
  else a ++ '/' :: b

/-- `sanitize_path` (main.py lines 138-145): trim the stem to 245 characters
when it exceeds 250, then rebuild the path with `with_stem`. -/
def sanitize_path (path : Str) : Except Str PyPath :=
  let stem0 := (parsePath path).stem
  let stem1 := if 250 < stem0.length then stem0.take 245 else stem0
  (parsePath path).withStem stem1

example : parsePath "a/b.txt".toList = ⟨false, ["a".toList, "b.txt".toList]⟩ := by decide
example : (parsePath "a/b.tar.gz".toList).suffix = ".gz".toList := by decide
example : (parsePath "a/b.tar.gz".toList).stem = "b.tar".toList := by decide
example : (parsePath "a/.txt".toList).stem = ".txt".toList := by decide
example : (parsePath "a/.txt".toList).suffix = [] := by decide
example : (parsePath "./test/x.".toList).suffix = [] := by decide
example : (parsePath ".".toList).name = [] := by decide
example : (parsePath "/".toList).name = [] := by decide
example : (parsePath "".toList).name = [] := by decide
example : sanitize_path "./test/data.csv".toList
    = .ok ⟨false, ["test".toList, "data.csv".toList]⟩ := by decide
example : sanitize_path ".".toList = .error "empty name".toList := by decide
example : renderPath (parsePath "./test/data.csv".toList) = "test/data.csv".toList := by decide
example : renderPath (parsePath "/a//b".toList) = "/a/b".toList := by decide
example : renderPath (parsePath ".".toList) = ".".toList := by decide
example : joinPath "./test".toList "a.txt".toList = "./test/a.txt".toList := by decide
example : (parsePath "./test/.pdf".toList).withSuffix ".pdf".toList
    = .ok ⟨false, ["test".toList, ".pdf.pdf".toList]⟩ := by decide
example : (parsePath "./test/Report.pdf".toList).withSuffix ".pdf".toList
    = .ok ⟨false, ["test".toList, "Report.pdf".toList]⟩ := by decide

/-! ## Filesystem model -/

/-- The local filesystem: an association of paths to file contents (bytes).
Directories are left implicit; only the files the download protocol touches
matter here. -/
structure FS where
  files : List (Str × List Nat)
deriving DecidableEq, Repr

/-- Remove the entry at path `p`, if present. -/
def FS.erase (fs : FS) (p : Str) : FS :=
  ⟨fs.files.filter (fun e => !(e.1 == p))⟩

/-- Content stored at path `p`. -/
def FS.lookup (fs : FS) (p : Str) : Option (List Nat) :=
  (fs.files.find? (fun e => e.1 == p)).map (fun e => e.2)

/-- `os.path.exists`. -/
def FS.contains (fs : FS) (p : Str) : Bool :=
  (fs.lookup p).isSome

/-- Create or truncate-and-write the file at `p`. -/
def FS.write (fs : FS) (p : Str) (c : List Nat) : FS :=
  ⟨(fs.erase p).files ++ [(p, c)]⟩

/-- `os.rename old new`: atomically move the file; the content appears at
`new` exactly when the whole operation succeeds (failure is modeled in the
caller by not performing the call at all). -/
def FS.rename (fs : FS) (o n : Str) : FS :=
  match fs.lookup o with
  | some c => (fs.erase o).write n c
  | none => fs

/-! ## Download protocol (`download_file`, main.py lines 148-181) -/

/-- Outcome environment for one `download_file` run: where the external
calls fail.  `chunks` are the chunk payloads successfully delivered by
`downloader.next_chunk()`; if `fetchErr` is set, the next chunk call raises
after those chunks were written; `openErr` makes `io.FileIO(temp, 'wb')`
raise; `renameErr` makes `os.rename` raise. -/
structure DownloadEnv where
  openErr : Option Str
  chunks : List (List Nat)
  fetchErr : Option Str
  renameErr : Option Str
deriving DecidableEq, Repr

inductive FetchMode where
  | export
  | direct
deriving DecidableEq, Repr

inductive DLOutcome where
  | skipped
  | success
  | failed (e : Str)
deriving DecidableEq, Repr

/-- Observable result of one `download_file` job: the filesystem, the
`failed_downloads` log, the outcome, how many fetch requests were issued,
which fetch mode was used, and the path the final rename created (if any). -/
structure DLResult where
  fs : FS
  log : List (Str × Str × Str)
  outcome : DLOutcome
  fetchCalls : Nat
  fetchMode : Option FetchMode
  created : Option Str
deriving DecidableEq, Repr

/-- The mime-type test `mime_type.startswith('application/vnd.google-apps.')`. -/
def isGoogleDoc (mime : Str) : Bool :=
  "application/vnd.google-apps.".toList.isPrefixOf mime

/-- The fetch/write/rename tail of `download_file` (lines 169-178), entered
after the existence check decided to download and the request was built:
open the temp file, write the delivered chunks, then rename temp to the
final path.  Every exception is caught by the surrounding handler, which
appends `(file_id, file_path, error)` to `failed_downloads` (lines 179-181). -/
def downloadBody (env : DownloadEnv) (file_id file_path : Str) (fs : FS)
    (log : List (Str × Str × Str)) (temp_path final_path : Str) (mode : FetchMode) : DLResult :=
  match env.openErr with
  | some e => ⟨fs, log ++ [(file_id, file_path, e)], .failed e, 1, some mode, none⟩
  | none =>
    let fs1 := fs.write temp_path env.chunks.flatten
    match env.fetchErr with
    | some e => ⟨fs1, log ++ [(file_id, file_path, e)], .failed e, 1, some mode, none⟩
    | none =>
      match env.renameErr with
      | some e => ⟨fs1, log ++ [(file_id, file_path, e)], .failed e, 1, some mode, none⟩
      | none =>
        ⟨fs1.rename temp_path final_path, log, .success, 1, some mode, some final_path⟩

/-- `download_file` (lines 148-181): sanitize the requested path, derive the
temp path, skip if the sanitized destination already exists, otherwise pick
export-to-PDF (forcing a `.pdf` final suffix) or direct fetch, and run the
fetch/write/rename body.  A `ValueError` from `sanitize_path` is caught by
the same `except Exception` handler. -/
def download_file (env : DownloadEnv) (file_id file_path mime_type : Str)
    (fs : FS) (log : List (Str × Str × Str)) : DLResult :=
  match sanitize_path file_path with
  | .error e => ⟨fs, log ++ [(file_id, file_path, e)], .failed e, 0, none, none⟩
  | .ok sp =>
    let temp_path := renderPath sp ++ ".temp".toList
    if fs.contains (renderPath sp) then
      ⟨fs, log, .skipped, 0, none, none⟩
    else
      if isGoogleDoc mime_type then
        match sp.withSuffix ".pdf".toList with
        | .error e => ⟨fs, log ++ [(file_id, file_path, e)], .failed e, 1, some .export, none⟩
        | .ok spp => downloadBody env file_id file_path fs log temp_path (renderPath spp) .export
      else
        downloadBody env file_id file_path fs log temp_path (renderPath sp) .direct

/-- The temp path `str(sanitized) + ".temp"` of a job, when the sanitizer
succeeds. -/
def tempPathOf (file_path : Str) : Option Str :=
  match sanitize_path file_path with
  | .ok sp => some (renderPath sp ++ ".temp".toList)
  | .error _ => none

/-- The final destination path of a job: the sanitized path, with the suffix
forced to `.pdf` for Google Workspace documents. -/
def finalDestOf (file_path mime_type : Str) : Option Str :=
  match sanitize_path file_path with
  | .error _ => none
  | .ok sp =>
    if isGoogleDoc mime_type then
      match sp.withSuffix ".pdf".toList with
      | .ok spp => some (renderPath spp)
      | .error _ => none
    else some (renderPath sp)

example :
    download_file ⟨none, [[1, 2], [3]], none, none⟩ "id1".toList
      "./test/data.csv".toList "text/csv".toList ⟨[]⟩ []
    = ⟨⟨[("test/data.csv".toList, [1, 2, 3])]⟩, [], .success, 1, some .direct,
        some "test/data.csv".toList⟩ := by decide

example :
    download_file ⟨none, [[1]], some "net down".toList, none⟩ "id1".toList
      "./test/data.csv".toList "text/csv".toList ⟨[]⟩ []
    = ⟨⟨[("test/data.csv.temp".toList, [1])]⟩,
        [("id1".toList, "./test/data.csv".toList, "net down".toList)],
        .failed "net down".toList, 1, some .direct, none⟩ := by decide

example :
    (download_file ⟨none, [[1]], none, none⟩ "id2".toList
      "./test/Report".toList "application/vnd.google-apps.document".toList ⟨[]⟩ []).created
    = some "test/Report.pdf".toList := by decide

/-! ## Bounded job scheduler (`JobExecutor`, main.py lines 19-40) -/

/-- The scheduler's observable state: the tracked `self.futures` list (as
job handles, numbered in submission order), plus ghost bookkeeping — the
handles drained from the list after `concurrent.futures.wait` reported them
complete, and every handle ever submitted. -/
structure ExecState where
  futures : List Nat
  drained : List Nat
  submitted : List Nat
  nextId : Nat
deriving DecidableEq, Repr

def initExec : ExecState := ⟨[], [], [], 0⟩

/-- `submit_job` (lines 24-36), parameterized by `done`: the set of futures
that `concurrent.futures.wait(self.futures, return_when=FIRST_COMPLETED)`
reports complete when the in-flight list is at capacity.  At capacity every
completed handle is dropped from the list (batch drain), then the new job is
submitted and appended. -/
def submit_job (maxW : Nat) (done : List Nat) (s : ExecState) : ExecState :=
  if maxW ≤ s.futures.length then
    ⟨s.futures.filter (fun f => !(done.contains f)) ++ [s.nextId],
     s.drained ++ s.futures.filter (fun f => done.contains f),
     s.submitted ++ [s.nextId],
     s.nextId + 1⟩
  else
    ⟨s.futures ++ [s.nextId], s.drained, s.submitted ++ [s.nextId], s.nextId + 1⟩

/-- `wait_completion` (lines 38-40) blocks on exactly the currently tracked
futures; this is the set of handles the final barrier waits for. -/
def wait_completion (s : ExecState) : List Nat := s.futures

/-- A whole run of `submit_job` calls, one per element of `dones`. -/
def runSubmits (maxW : Nat) (dones : List (List Nat)) (s : ExecState) : ExecState :=
  dones.foldl (fun st d => submit_job maxW d st) s

/-- All intermediate scheduler states of a run (including the initial one). -/
def submitStates (maxW : Nat) (dones : List (List Nat)) (s : ExecState) : List ExecState :=
  List.scanl (fun st d => submit_job maxW d st) s dones

/-- `concurrent.futures.wait(…, FIRST_COMPLETED)` returns only once at least
one of the waited-on futures is complete, and reports a subset of them: at a
saturated submit the reported `done` set intersects the tracked list. -/
def ValidTrace (maxW : Nat) : ExecState → List (List Nat) → Prop
  | _, [] => True
  | s, d :: ds =>
    (maxW ≤ s.futures.length → ∃ f, f ∈ s.futures ∧ f ∈ d) ∧
      ValidTrace maxW (submit_job maxW d s) ds

/-! ## Remote tree and traversal (`list_all_files`, main.py lines 94-136) -/

/-- One remote entry, as the traversal sees it.  For a folder, `children`
are the entries its listing returns across the successful pages, and
`listErr` (when set) is the exception the next page-listing call raises —
the error that propagates out of the recursive `list_all_files` call. -/
inductive RNode where
  | file (id name mime : Str)
  | folder (id name : Str) (children : List RNode) (listErr : Option Str)
deriving Repr

/-- Observable traversal state: directories created, download jobs submitted
(`(file_id, file_path, mime_type)` in submission order), and the
`failed_folders` records appended. -/
structure MirrorState where
  dirs : List Str
  jobs : List (Str × Str × Str)
  failedFolders : List (Str × Str × Str)
deriving DecidableEq, Repr

/-- Destination path a leaf entry is downloaded to (line 126):
`os.path.join(local_path, name + '.pdf' if mime.startswith('application/vnd.google-apps.') else name)`. -/
def leafDest (lp name mime : Str) : Str :=
  joinPath lp (if isGoogleDoc mime then name ++ ".pdf".toList else name)

/-- The body of `list_all_files` over the items of one folder (lines
112-129): a sub-folder gets its directory created, is recursed into, and —
if its listing raised — contributes one `failed_folders` record
`(folder_id, local_path, error)` before its siblings are processed; a leaf
submits one download job. -/
def processItems (items : List RNode) (lp : Str) (st : MirrorState) : MirrorState :=
  match items with
  | [] => st
  | .file fid fname fmime :: rest =>
    processItems rest lp
      { st with jobs := st.jobs ++ [(fid, leafDest lp fname fmime, fmime)] }
  | .folder fid fname fch ferr :: rest =>
    let nlp := joinPath lp fname
    let st1 := { st with dirs := st.dirs ++ [nlp] }
    let st2 := processItems fch nlp st1
    let st3 :=
      match ferr with
      | some e => { st2 with failedFolders := st2.failedFolders ++ [(fid, lp, e)] }
      | none => st2
    processItems rest lp st3
termination_by sizeOf items

/-- `list_all_files` on a root folder: processes the returned entries and
then propagates the folder's own listing error, if any (an error of the root
listing is not caught anywhere below `main`). -/
def list_all_files (children : List RNode) (listErr : Option Str) (lp : Str)
    (st : MirrorState) : MirrorState × Option Str :=
  (processItems children lp st, listErr)

/-- Specification-side list of directories a fully processed forest creates,
in traversal order. -/
def specDirs (items : List RNode) (lp : Str) : List Str :=
  match items with
  | [] => []
  | .file _ _ _ :: rest => specDirs rest lp
  | .folder _ fname fch _ :: rest =>
    joinPath lp fname :: (specDirs fch (joinPath lp fname) ++ specDirs rest lp)
termination_by sizeOf items

/-- Specification-side list of download jobs a forest submits, in traversal
order. -/
def specJobs (items : List RNode) (lp : Str) : List (Str × Str × Str) :=
  match items with
  | [] => []
  | .file fid fname fmime :: rest =>
    (fid, leafDest lp fname fmime, fmime) :: specJobs rest lp
  | .folder _ fname fch _ :: rest =>
    specJobs fch (joinPath lp fname) ++ specJobs rest lp
termination_by sizeOf items

/-- Specification-side list of `failed_folders` records a forest appends:
exactly one record per folder whose listing raised, placed after the records
of the part of its subtree that was processed first. -/
def specFailures (items : List RNode) (lp : Str) : List (Str × Str × Str) :=
  match items with
  | [] => []
  | .file _ _ _ :: rest => specFailures rest lp
  | .folder fid fname fch ferr :: rest =>
    specFailures fch (joinPath lp fname)
      ++ (match ferr with | some e => [(fid, lp, e)] | none => [])
      ++ specFailures rest lp
termination_by sizeOf items

/-! ## Failure recorder (main.py lines 13, 78-91) -/

inductive LogEvent where
  | acquire
  | release
  | openAppend (file : Str)
  | append (file : Str) (line : Str)
deriving DecidableEq, Repr

/-- `write_failed_folder` (lines 78-83): opens `./failed_folders.txt` in
append mode and writes one comma-separated line.  No lock is touched. -/
def write_failed_folder (folder_id folder_name error : Str) : List LogEvent :=
  [.openAppend "./failed_folders.txt".toList,
   .append "./failed_folders.txt".toList
     (folder_id ++ ",".toList ++ folder_name ++ ",".toList ++ error ++ "\n".toList)]

/-- `write_failed_downloads` (lines 86-91): opens `./failed_downloads.txt`
in append mode and writes one comma-separated line.  No lock is touched
(`WRITE_LOCK`, line 13, is declared `global` in `download_file` but never
acquired anywhere). -/
def write_failed_downloads (file_id file_name error : Str) : List LogEvent :=
  [.openAppend "./failed_downloads.txt".toList,
   .append "./failed_downloads.txt".toList
     (file_id ++ ",".toList ++ file_name ++ ",".toList ++ error ++ "\n".toList)]

/-! ## Association-list filesystem lemmas -/

lemma find?_filter_out_self (l : List (Str × List Nat)) (p : Str) :
    (l.filter (fun e => !(e.1 == p))).find? (fun e => e.1 == p) = none := by
  induction l with
  | nil => rfl
  | cons a l ih =>
    by_cases h : a.1 = p
    · simp [List.filter_cons, h, ih]
    · simp only [List.filter_cons]
      have hb : (a.1 == p) = false := beq_false_of_ne h
      simp [hb, List.find?_cons_of_neg, ih]

lemma find?_filter_out_other (l : List (Str × List Nat)) (p q : Str) (h : q ≠ p) :
    (l.filter (fun e => !(e.1 == p))).find? (fun e => e.1 == q)
      = l.find? (fun e => e.1 == q) := by
  induction l with
  | nil => rfl
  | cons a l ih =>
    by_cases ha : a.1 = p
    · have hq : ¬ ((a.1 == q) = true) := by
        simp only [ha, beq_iff_eq]
        exact fun hh => h hh.symm
      have hf : List.filter (fun e => !(e.1 == p)) (a :: l)
          = List.filter (fun e => !(e.1 == p)) l := by simp [List.filter_cons, ha]
      rw [hf, ih]
      exact (List.find?_cons_of_neg (p := fun e => e.1 == q) (a := a) l hq).symm
    · have hf : List.filter (fun e => !(e.1 == p)) (a :: l)
          = a :: List.filter (fun e => !(e.1 == p)) l := by simp [List.filter_cons, ha]
      rw [hf]
      by_cases haq : a.1 = q
      · rw [List.find?_cons_of_pos (p := fun e => e.1 == q) (a := a) _ (by simp [haq]),
          List.find?_cons_of_pos (p := fun e => e.1 == q) (a := a) _ (by simp [haq])]
      · rw [List.find?_cons_of_neg (p := fun e => e.1 == q) (a := a) _ (by simp [haq]),
          List.find?_cons_of_neg (p := fun e => e.1 == q) (a := a) _ (by simp [haq]), ih]

lemma FS.lookup_erase (fs : FS) (p q : Str) :
    (fs.erase p).lookup q = if q = p then none else fs.lookup q := by
  by_cases h : q = p
  · simp [FS.lookup, FS.erase, h, find?_filter_out_self]
  · simp [FS.lookup, FS.erase, h, find?_filter_out_other _ _ _ h]

lemma FS.lookup_write (fs : FS) (p : Str) (c : List Nat) (q : Str) :
    (fs.write p c).lookup q = if q = p then some c else fs.lookup q := by
  by_cases h : q = p
  · subst h
    simp [FS.lookup, FS.write, FS.erase, List.find?_append, find?_filter_out_self]
  · have hb : (p == q) = false := beq_false_of_ne (fun hh => h hh.symm)
    simp [FS.lookup, FS.write, FS.erase, List.find?_append,
      find?_filter_out_other _ _ _ h, h, hb]

lemma FS.contains_write (fs : FS) (p : Str) (c : List Nat) (q : Str) :
    (fs.write p c).contains q = if q = p then true else fs.contains q := by
  by_cases h : q = p <;> simp [FS.contains, FS.lookup_write, h]

lemma FS.lookup_rename_of_ne (fs : FS) (o n q : Str) (ho : q ≠ o) (hn : q ≠ n) :
    (fs.rename o n).lookup q = fs.lookup q := by
  unfold FS.rename
  cases h : fs.lookup o with
  | none => rfl
  | some c => simp [FS.lookup_write, FS.lookup_erase, ho, hn]

lemma FS.lookup_rename_new (fs : FS) (o n : Str) (c : List Nat)
    (h : fs.lookup o = some c) : (fs.rename o n).lookup n = some c := by
  unfold FS.rename
  simp [h, FS.lookup_write]

lemma FS.contains_rename_old (fs : FS) (o n : Str) (ho : o ≠ n) :
    (fs.rename o n).contains o = false := by
  unfold FS.rename
  cases h : fs.lookup o with
  | none => simp [FS.contains, h]
  | some c => simp [FS.contains, FS.lookup_write, FS.lookup_erase, ho]

/-! ## Path-model lemmas -/

lemma splitOnChar_ne_nil (sep : Char) (s : Str) : splitOnChar sep s ≠ [] := by
  cases s with
  | nil => simp [splitOnChar]
  | cons c rest =>
    simp only [splitOnChar]
    by_cases h : c = sep
    · simp [h]
    · rw [if_neg h]
      cases splitOnChar sep rest <;> simp

lemma splitOnChar_sep_not_mem (sep : Char) (s : Str) :
    ∀ x ∈ splitOnChar sep s, sep ∉ x := by
  induction s with
  | nil =>
    intro x hx
    simp only [splitOnChar, List.mem_singleton] at hx
    simp [hx]
  | cons c rest ih =>
    intro x hx
    simp only [splitOnChar] at hx
    by_cases h : c = sep
    · rw [if_pos h] at hx
      rcases List.mem_cons.mp hx with h1 | h1
      · simp [h1]
      · exact ih x h1
    · rw [if_neg h] at hx
      cases hr : splitOnChar sep rest with
      | nil => exact absurd hr (splitOnChar_ne_nil sep rest)
      | cons hd tl =>
        rw [hr] at hx
        rcases List.mem_cons.mp hx with h1 | h1
        · subst h1
          intro hm
          rcases List.mem_cons.mp hm with h2 | h2
          · exact h h2.symm
          · exact ih hd (by rw [hr]; exact List.mem_cons_self _ _) h2
        · exact ih x (by rw [hr]; exact List.mem_cons_of_mem _ h1)

lemma tail_ne_of_name (p : PyPath) (h : p.name ≠ []) : p.tail ≠ [] :=
  fun he => h (by simp [PyPath.name, he])

lemma tail_dropLast_name (p : PyPath) (h : p.tail ≠ []) :
    p.tail.dropLast ++ [p.name] = p.tail := by
  have hg := List.getLast?_eq_getLast p.tail h
  have hn : p.name = p.tail.getLast h := by simp [PyPath.name, hg]
  rw [hn]
  exact List.dropLast_append_getLast h

lemma name_of_concat (b : Bool) (l : List Str) (nm : Str) :
    (PyPath.mk b (l ++ [nm])).name = nm := by
  simp [PyPath.name, List.getLast?_concat]

lemma parsePath_name_props (s : Str) (h : (parsePath s).name ≠ []) :
    '/' ∉ (parsePath s).name ∧ (parsePath s).name ≠ ['.'] := by
  have ht : (parsePath s).tail ≠ [] := tail_ne_of_name _ h
  have hg := List.getLast?_eq_getLast _ ht
  have hmem : (parsePath s).name ∈ (parsePath s).tail := by
    rw [PyPath.name, hg]
    simp only [Option.getD_some]
    exact List.getLast_mem ht
  have hsplit := List.mem_filter.mp hmem
  refine ⟨splitOnChar_sep_not_mem '/' s _ hsplit.1, ?_⟩
  exact (of_decide_eq_true hsplit.2).2

lemma name_of_nil (p : PyPath) (h : p.name = []) : p.stem = [] ∧ p.suffix = [] := by
  unfold PyPath.stem PyPath.suffix lastDotIdx
  rw [h]
  simp

lemma stem_append_suffix (p : PyPath) : p.stem ++ p.suffix = p.name := by
  unfold PyPath.stem PyPath.suffix
  cases h : lastDotIdx p.name with
  | none => simp
  | some i =>
    by_cases hc : 0 < i ∧ i < p.name.length - 1
    · simp [hc, List.take_append_drop]
    · simp [hc]

lemma suffix_eq_drop (p : PyPath) (h : p.suffix ≠ []) :
    ∃ i, p.suffix = p.name.drop i ∧ 0 < i ∧ i < p.name.length - 1 := by
  unfold PyPath.suffix at h ⊢
  cases hh : lastDotIdx p.name with
  | none => rw [hh] at h; simp at h
  | some i =>
    rw [hh] at h
    by_cases hc : 0 < i ∧ i < p.name.length - 1
    · refine ⟨i, ?_, hc.1, hc.2⟩
      simp [hc]
    · exfalso
      apply h
      simp [hc]

lemma stem_subset (p : PyPath) : ∀ c ∈ p.stem, c ∈ p.name := by
  intro c hc
  have := stem_append_suffix p
  rw [← this]
  exact List.mem_append_left _ hc

lemma suffix_subset (p : PyPath) : ∀ c ∈ p.suffix, c ∈ p.name := by
  intro c hc
  have := stem_append_suffix p
  rw [← this]
  exact List.mem_append_right _ hc

lemma withName_ok (p : PyPath) (nm : Str) (h1 : p.name ≠ []) (h2 : nm ≠ [])
    (h3 : '/' ∉ nm) (h4 : nm ≠ ['.']) :
    p.withName nm = .ok ⟨p.absolute, p.tail.dropLast ++ [nm]⟩ := by
  unfold PyPath.withName
  rw [if_neg h1, if_neg (by push_neg; exact ⟨h2, h3, h4⟩)]

lemma withName_ok_shape {p : PyPath} {nm : Str} {q : PyPath}
    (h : p.withName nm = .ok q) :
    p.name ≠ [] ∧ nm ≠ [] ∧ '/' ∉ nm ∧
      q = ⟨p.absolute, p.tail.dropLast ++ [nm]⟩ := by
  unfold PyPath.withName at h
  by_cases hA : p.name = []
  · rw [if_pos hA] at h; cases h
  · rw [if_neg hA] at h
    by_cases hB : nm = [] ∨ '/' ∈ nm ∨ nm = ['.']
    · rw [if_pos hB] at h; cases h
    · rw [if_neg hB] at h
      push_neg at hB
      injection h with h'
      exact ⟨hA, hB.1, hB.2.1, h'.symm⟩

lemma sanitize_eq (path : Str) :
    sanitize_path path = (parsePath path).withName
      ((if 250 < (parsePath path).stem.length then (parsePath path).stem.take 245
        else (parsePath path).stem) ++ (parsePath path).suffix) := rfl

lemma sanitize_ok_shape {path : Str} {sp : PyPath} (h : sanitize_path path = .ok sp) :
    ∃ nm, nm ≠ [] ∧ '/' ∉ nm ∧
      sp = ⟨(parsePath path).absolute, (parsePath path).tail.dropLast ++ [nm]⟩ := by
  rw [sanitize_eq] at h
  obtain ⟨-, h2, h3, h4⟩ := withName_ok_shape h
  exact ⟨_, h2, h3, h4⟩

lemma sanitize_ok_name {path : Str} {sp : PyPath} (h : sanitize_path path = .ok sp) :
    sp.name ≠ [] ∧ sp.tail ≠ [] := by
  obtain ⟨nm, hnm, -, hsp⟩ := sanitize_ok_shape h
  subst hsp
  rw [name_of_concat]
  exact ⟨hnm, by simp⟩

lemma withSuffix_ok_shape {p : PyPath} {sfx : Str} {q : PyPath}
    (h : p.withSuffix sfx = .ok q) :
    ∃ x, q = ⟨p.absolute, p.tail.dropLast ++ [x ++ sfx]⟩ := by
  unfold PyPath.withSuffix at h
  by_cases hA : '/' ∈ sfx
  · rw [if_pos hA] at h; cases h
  · rw [if_neg hA] at h
    by_cases hB : (sfx ≠ [] ∧ sfx.take 1 ≠ ['.']) ∨ sfx = ['.']
    · rw [if_pos hB] at h; cases h
    · rw [if_neg hB] at h
      by_cases hC : p.name = []
      · rw [if_pos hC] at h; cases h
      · rw [if_neg hC] at h
        injection h with h'
        exact ⟨_, h'.symm⟩

lemma renderTail_cons_cons (x : Str) (l : List Str) (h : l ≠ []) :
    renderTail (x :: l) = x ++ '/' :: renderTail l := by
  cases l with
  | nil => exact absurd rfl h
  | cons y t => rfl

lemma renderTail_concat (l : List Str) (n : Str) :
    ∃ pre, renderTail (l ++ [n]) = pre ++ n := by
  induction l with
  | nil => exact ⟨[], rfl⟩
  | cons x l ih =>
    obtain ⟨pre, hp⟩ := ih
    refine ⟨x ++ '/' :: pre, ?_⟩
    rw [List.cons_append, renderTail_cons_cons x _ (by simp), hp]
    simp

lemma renderPath_concat {p : PyPath} {l : List Str} {nm : Str} (h : p.tail = l ++ [nm]) :
    ∃ pre, renderPath p = pre ++ nm := by
  obtain ⟨pre, hp⟩ := renderTail_concat l nm
  unfold renderPath
  by_cases hab : p.absolute
  · rw [if_pos hab, h, hp]
    exact ⟨'/' :: pre, rfl⟩
  · rw [if_neg hab, if_neg (by simp [h]), h, hp]
    exact ⟨pre, rfl⟩

lemma append_temp_ne_append_pdf (a b : Str) : a ++ ".temp".toList ≠ b ++ ".pdf".toList := by
  intro h
  have h1 : (a ++ ".temp".toList).getLast? = some 'p' := by
    rw [List.getLast?_append_of_ne_nil _ (by decide)]
    decide
  have h2 : (b ++ ".pdf".toList).getLast? = some 'f' := by
    rw [List.getLast?_append_of_ne_nil _ (by decide)]
    decide
  rw [h, h2] at h1
  exact absurd h1 (by decide)

lemma ne_append_temp (a b : Str) : b ≠ b ++ a ++ ".temp".toList ∧ b ≠ b ++ ".temp".toList := by
  constructor <;> intro h <;> have := congrArg List.length h <;> simp at this

lemma finalDest_ne_temp {fp mime d t : Str} (hd : finalDestOf fp mime = some d)
    (ht : tempPathOf fp = some t) : d ≠ t := by
  cases hs : sanitize_path fp with
  | error e =>
    unfold finalDestOf at hd
    rw [hs] at hd
    cases hd
  | ok sp =>
    unfold finalDestOf at hd
    unfold tempPathOf at ht
    simp only [hs, Option.some.injEq] at hd ht
    by_cases hg : isGoogleDoc mime = true
    · rw [if_pos hg] at hd
      cases hw : sp.withSuffix ".pdf".toList with
      | error e => rw [hw] at hd; cases hd
      | ok spp =>
        rw [hw, Option.some.injEq] at hd
        obtain ⟨x, hx⟩ := withSuffix_ok_shape hw
        obtain ⟨pre, hpre⟩ := renderPath_concat (p := spp) (l := sp.tail.dropLast) (by rw [hx])
        intro he
        apply append_temp_ne_append_pdf (renderPath sp) (pre ++ x)
        rw [ht, ← he, ← hd, hpre, List.append_assoc]
    · rw [if_neg hg] at hd
      injection hd with hd'
      intro he
      have hcontra : renderPath sp = renderPath sp ++ ".temp".toList :=
        hd'.trans (he.trans ht.symm)
      have := congrArg List.length hcontra
      simp at this

lemma withSuffix_id (p : PyPath) (h : p.suffix = ".pdf".toList) :
    p.withSuffix ".pdf".toList = .ok p := by
  have hsfx : p.suffix ≠ [] := by rw [h]; decide
  have hname : p.name ≠ [] := by
    intro hn
    exact hsfx (name_of_nil p hn).2
  obtain ⟨i, hdrop, hi0, hilt⟩ := suffix_eq_drop p hsfx
  have hlen : p.suffix.length = p.name.length - i := by
    rw [hdrop, List.length_drop]
  have hi : p.name.length - p.suffix.length = i := by
    have h4 : p.suffix.length = 4 := by rw [h]; rfl
    omega
  have hnm : (if p.suffix ≠ [] then p.name.take (p.name.length - p.suffix.length)
      else p.name) ++ ".pdf".toList = p.name := by
    rw [if_pos hsfx, hi, ← h, hdrop, List.take_append_drop]
  unfold PyPath.withSuffix
  rw [if_neg (by decide), if_neg (by decide), if_neg hname]
  show Except.ok ⟨p.absolute, p.tail.dropLast ++ [_]⟩ = Except.ok p
  rw [hnm, tail_dropLast_name p (tail_ne_of_name p hname)]

/-! ## Scheduler lemmas -/

lemma submit_job_at_capacity (maxW : Nat) (done : List Nat) (s : ExecState)
    (h : maxW ≤ s.futures.length) :
    submit_job maxW done s =
      ⟨s.futures.filter (fun f => !(done.contains f)) ++ [s.nextId],
       s.drained ++ s.futures.filter (fun f => done.contains f),
       s.submitted ++ [s.nextId], s.nextId + 1⟩ := by
  unfold submit_job
  rw [if_pos h]

lemma submit_job_below_capacity (maxW : Nat) (done : List Nat) (s : ExecState)
    (h : s.futures.length < maxW) :
    submit_job maxW done s =
      ⟨s.futures ++ [s.nextId], s.drained, s.submitted ++ [s.nextId], s.nextId + 1⟩ := by
  unfold submit_job
  rw [if_neg (by omega)]

lemma submit_job_length_le (maxW : Nat) (done : List Nat) (s : ExecState)
    (hs : s.futures.length ≤ maxW)
    (hd : maxW ≤ s.futures.length → ∃ f, f ∈ s.futures ∧ f ∈ done) :
    (submit_job maxW done s).futures.length ≤ maxW := by
  by_cases h : maxW ≤ s.futures.length
  · rw [submit_job_at_capacity maxW done s h]
    obtain ⟨f, hf, hfd⟩ := hd h
    have hlt : (s.futures.filter (fun f => !(done.contains f))).length < s.futures.length := by
      refine List.length_filter_lt_length_iff_exists.mpr ⟨f, hf, ?_⟩
      simp [List.elem_eq_mem, hfd]
    simp only [List.length_append, List.length_singleton]
    omega
  · rw [submit_job_below_capacity maxW done s (by omega)]
    simp only [List.length_append, List.length_singleton]
    omega

lemma submit_job_submitted_inv (maxW : Nat) (done : List Nat) (s : ExecState)
    (h : ∀ x ∈ s.submitted, x ∈ s.futures ∨ x ∈ s.drained) :
    ∀ x ∈ (submit_job maxW done s).submitted,
      x ∈ (submit_job maxW done s).futures ∨ x ∈ (submit_job maxW done s).drained := by
  intro x hx
  by_cases hcap : maxW ≤ s.futures.length
  · rw [submit_job_at_capacity maxW done s hcap] at hx ⊢
    simp only [List.mem_append, List.mem_singleton] at hx ⊢
    rcases hx with hx | hx
    · rcases h x hx with hf | hdr
      · by_cases hc : x ∈ done
        · refine Or.inr (Or.inr (List.mem_filter.mpr ⟨hf, ?_⟩))
          simp [List.contains, List.elem_eq_mem, hc]
        · refine Or.inl (Or.inl (List.mem_filter.mpr ⟨hf, ?_⟩))
          simp [List.contains, List.elem_eq_mem, hc]
      · exact Or.inr (Or.inl hdr)
    · exact Or.inl (Or.inr hx)
  · rw [submit_job_below_capacity maxW done s (by omega)] at hx ⊢
    simp only [List.mem_append, List.mem_singleton] at hx ⊢
    rcases hx with hx | hx
    · rcases h x hx with hf | hdr
      · exact Or.inl (Or.inl hf)
      · exact Or.inr hdr
    · exact Or.inl (Or.inr hx)

lemma submit_job_drained_sub (maxW : Nat) (done : List Nat) (s : ExecState) :
    ∀ x ∈ (submit_job maxW done s).drained, x ∈ s.drained ∨ x ∈ done := by
  intro x hx
  by_cases hcap : maxW ≤ s.futures.length
  · rw [submit_job_at_capacity maxW done s hcap] at hx
    simp only [List.mem_append] at hx
    rcases hx with hx | hx
    · exact Or.inl hx
    · have := List.mem_filter.mp hx
      refine Or.inr ?_
      have hc := this.2
      rw [List.contains, List.elem_eq_mem] at hc
      exact of_decide_eq_true hc
  · rw [submit_job_below_capacity maxW done s (by omega)] at hx
    exact Or.inl hx

lemma runSubmits_inv (maxW : Nat) (dones : List (List Nat)) (s : ExecState)
    (h : ∀ x ∈ s.submitted, x ∈ s.futures ∨ x ∈ s.drained) :
    ∀ x ∈ (runSubmits maxW dones s).submitted,
      x ∈ (runSubmits maxW dones s).futures ∨ x ∈ (runSubmits maxW dones s).drained := by
  induction dones generalizing s with
  | nil => exact h
  | cons d ds ih =>
    exact ih (submit_job maxW d s) (submit_job_submitted_inv maxW d s h)

lemma runSubmits_drained_sub (maxW : Nat) (dones : List (List Nat)) (s : ExecState) :
    ∀ x ∈ (runSubmits maxW dones s).drained, x ∈ s.drained ∨ x ∈ dones.flatten := by
  induction dones generalizing s with
  | nil => intro x hx; exact Or.inl hx
  | cons d ds ih =>
    intro x hx
    rcases ih (submit_job maxW d s) x hx with hx' | hx'
    · rcases submit_job_drained_sub maxW d s x hx' with h1 | h1
      · exact Or.inl h1
      · refine Or.inr ?_
        rw [List.flatten_cons]
        exact List.mem_append_left _ h1
    · refine Or.inr ?_
      rw [List.flatten_cons]
      exact List.mem_append_right _ hx'

/-! ## Traversal decomposition -/

lemma processItems_nil (lp : Str) (st : MirrorState) :
    processItems [] lp st = st := by
  rw [processItems.eq_def]

lemma processItems_file (fid fname fmime : Str) (rest : List RNode) (lp : Str)
    (st : MirrorState) :
    processItems (.file fid fname fmime :: rest) lp st
      = processItems rest lp
          { st with jobs := st.jobs ++ [(fid, leafDest lp fname fmime, fmime)] } := by
  rw [processItems.eq_def]

lemma processItems_folder (fid fname : Str) (fch : List RNode) (ferr : Option Str)
    (rest : List RNode) (lp : Str) (st : MirrorState) :
    processItems (.folder fid fname fch ferr :: rest) lp st
      = (let nlp := joinPath lp fname
         let st2 := processItems fch nlp { st with dirs := st.dirs ++ [nlp] }
         processItems rest lp
           (match ferr with
            | some e => { st2 with failedFolders := st2.failedFolders ++ [(fid, lp, e)] }
            | none => st2)) := by
  rw [processItems.eq_def]

lemma specDirs_nil (lp : Str) : specDirs [] lp = [] := by rw [specDirs.eq_def]

lemma specDirs_file (fid fname fmime : Str) (rest : List RNode) (lp : Str) :
    specDirs (.file fid fname fmime :: rest) lp = specDirs rest lp := by
  rw [specDirs.eq_def]

lemma specDirs_folder (fid fname : Str) (fch : List RNode) (ferr : Option Str)
    (rest : List RNode) (lp : Str) :
    specDirs (.folder fid fname fch ferr :: rest) lp
      = joinPath lp fname :: (specDirs fch (joinPath lp fname) ++ specDirs rest lp) := by
  rw [specDirs.eq_def]

lemma specJobs_nil (lp : Str) : specJobs [] lp = [] := by rw [specJobs.eq_def]

lemma specJobs_file (fid fname fmime : Str) (rest : List RNode) (lp : Str) :
    specJobs (.file fid fname fmime :: rest) lp
      = (fid, leafDest lp fname fmime, fmime) :: specJobs rest lp := by
  rw [specJobs.eq_def]

lemma specJobs_folder (fid fname : Str) (fch : List RNode) (ferr : Option Str)
    (rest : List RNode) (lp : Str) :
    specJobs (.folder fid fname fch ferr :: rest) lp
      = specJobs fch (joinPath lp fname) ++ specJobs rest lp := by
  rw [specJobs.eq_def]

lemma specFailures_nil (lp : Str) : specFailures [] lp = [] := by rw [specFailures.eq_def]

lemma specFailures_file (fid fname fmime : Str) (rest : List RNode) (lp : Str) :
    specFailures (.file fid fname fmime :: rest) lp = specFailures rest lp := by
  rw [specFailures.eq_def]

lemma specFailures_folder (fid fname : Str) (fch : List RNode) (ferr : Option Str)
    (rest : List RNode) (lp : Str) :
    specFailures (.folder fid fname fch ferr :: rest) lp
      = specFailures fch (joinPath lp fname)
          ++ (match ferr with | some e => [(fid, lp, e)] | none => [])
          ++ specFailures rest lp := by
  rw [specFailures.eq_def]

lemma processItems_spec_aux : ∀ (n : Nat) (items : List RNode), sizeOf items ≤ n →
    ∀ (lp : Str) (st : MirrorState),
    processItems items lp st =
      ⟨st.dirs ++ specDirs items lp,
       st.jobs ++ specJobs items lp,
       st.failedFolders ++ specFailures items lp⟩ := by
  intro n
  induction n with
  | zero =>
    intro items h
    cases items with
    | nil =>
      intro lp st
      simp [processItems_nil, specDirs_nil, specJobs_nil, specFailures_nil]
    | cons a rest =>
      exfalso
      rw [List.cons.sizeOf_spec] at h
      omega
  | succ n ih =>
    intro items hsz lp st
    cases items with
    | nil => simp [processItems_nil, specDirs_nil, specJobs_nil, specFailures_nil]
    | cons a rest =>
      rw [List.cons.sizeOf_spec] at hsz
      cases a with
      | file fid fname fmime =>
        rw [processItems_file, specDirs_file, specJobs_file, specFailures_file,
          ih rest (by omega) lp _]
        simp
      | folder fid fname fch ferr =>
        rw [RNode.folder.sizeOf_spec] at hsz
        rw [processItems_folder, specDirs_folder, specJobs_folder, specFailures_folder]
        simp only []
        rw [ih fch (by omega) (joinPath lp fname) _]
        cases ferr with
        | none =>
          rw [ih rest (by omega) lp _]
          simp [List.append_assoc]
        | some e =>
          rw [ih rest (by omega) lp _]
          simp [List.append_assoc]

lemma processItems_spec (items : List RNode) (lp : Str) (st : MirrorState) :
    processItems items lp st =
      ⟨st.dirs ++ specDirs items lp,
       st.jobs ++ specJobs items lp,
       st.failedFolders ++ specFailures items lp⟩ :=
  processItems_spec_aux (sizeOf items) items (Nat.le_refl _) lp st

/-! ## Claim C5 — path sanitizer -/

/-- C5: `sanitize_path` is a pure function; on a path whose filename stem
exceeds 250 characters it returns the path with the stem truncated to its
first 245 characters and the original extension reattached.  The claim's
"every other input path is returned unchanged" holds for every path with a
nonempty final component; on paths with an empty final component (`"."`,
`"/"`, `""`) the call raises `ValueError` instead (see the counterexample
and claim C10), so the unchanged-clause is amended with that proviso. -/
theorem C5_sanitize_truncation (p : Str) :
    (250 < (parsePath p).stem.length →
      sanitize_path p = .ok ⟨(parsePath p).absolute,
        (parsePath p).tail.dropLast
          ++ [(parsePath p).stem.take 245 ++ (parsePath p).suffix]⟩) ∧
    ((parsePath p).stem.length ≤ 250 → (parsePath p).name ≠ [] →
      sanitize_path p = .ok (parsePath p)) := by
  constructor
  · intro h
    have hname : (parsePath p).name ≠ [] := by
      intro hnil
      have hs := (name_of_nil _ hnil).1
      rw [hs] at h
      simp at h
    obtain ⟨hsep, hdot⟩ := parsePath_name_props p hname
    have hlen : 245 ≤ ((parsePath p).stem.take 245 ++ (parsePath p).suffix).length := by
      rw [List.length_append, List.length_take]
      omega
    rw [sanitize_eq, if_pos h]
    apply withName_ok _ _ hname
    · intro hnil
      rw [hnil] at hlen
      simp at hlen
    · intro hm
      rcases List.mem_append.mp hm with hm | hm
      · exact hsep (stem_subset _ _ (List.take_subset _ _ hm))
      · exact hsep (suffix_subset _ _ hm)
    · intro he
      rw [he] at hlen
      simp at hlen
  · intro h hn
    obtain ⟨hsep, hdot⟩ := parsePath_name_props p hn
    rw [sanitize_eq, if_neg (by omega), stem_append_suffix]
    rw [withName_ok _ _ hn hn hsep hdot]
    rw [tail_dropLast_name _ (tail_ne_of_name _ hn)]

/-- C5 counterexample: on the input `"."` the stem-length condition is not
triggered, yet `sanitize_path` does not return the path unchanged — it
raises `ValueError` (`Path('.').with_stem('')` has no name to replace). -/
theorem C5_sanitize_truncation_cex :
    sanitize_path ".".toList ≠ .ok (parsePath ".".toList) ∧
    (parsePath ".".toList).stem.length ≤ 250 := by decide

set_option maxRecDepth 10000 in
/-- C5 witness: a 300-character stem is truncated to 245 characters; a short
path is returned unchanged. -/
theorem C5_sanitize_truncation_witness :
    sanitize_path (List.replicate 300 'a')
      = .ok ⟨(parsePath (List.replicate 300 'a')).absolute,
          (parsePath (List.replicate 300 'a')).tail.dropLast
            ++ [(parsePath (List.replicate 300 'a')).stem.take 245
                 ++ (parsePath (List.replicate 300 'a')).suffix]⟩ ∧
    sanitize_path "./test/data.csv".toList = .ok (parsePath "./test/data.csv".toList) :=
  ⟨(C5_sanitize_truncation _).1 (by decide),
   (C5_sanitize_truncation _).2 (by decide) (by decide)⟩

/-! ## Claim C10 — sanitizer partiality -/

/-- C10: `sanitize_path` is partial at its public interface: on every path
whose final component is empty (so in particular `"."`, `"/"`, and `""`) the
`Path.with_stem` call raises `ValueError` even though the stem-length
condition is not triggered. -/
theorem C10_sanitize_raises (p : Str) (h : (parsePath p).name = []) :
    (sanitize_path p).isOk = false ∧ (parsePath p).stem.length ≤ 250 := by
  refine ⟨?_, ?_⟩
  · rw [sanitize_eq]
    unfold PyPath.withName
    rw [if_pos h]
    rfl
  · rw [(name_of_nil _ h).1]
    simp

/-- C10 witness: the three concrete inputs named by the claim all raise. -/
theorem C10_sanitize_raises_witness :
    (sanitize_path ".".toList).isOk = false ∧
    (sanitize_path "/".toList).isOk = false ∧
    (sanitize_path "".toList).isOk = false :=
  ⟨(C10_sanitize_raises _ (by decide)).1,
   (C10_sanitize_raises _ (by decide)).1,
   (C10_sanitize_raises _ (by decide)).1⟩

/-! ## Claim C2 — bounded concurrency -/

/-- C2: for every capacity and every sequence of `submit_job` calls in which
each `concurrent.futures.wait` at capacity reports at least one tracked
future complete (`ValidTrace`), the tracked futures list holds at most
`maxW` entries after every call.  Since a submitted job leaves the tracked
list only once reported complete (see `C8_wait_completion_covers`), the
in-flight jobs are always among the tracked futures, so at most `maxW` jobs
are ever simultaneously in flight. -/
theorem C2_bounded_in_flight (maxW : Nat) (dones : List (List Nat)) (s : ExecState)
    (hs : s.futures.length ≤ maxW) (hv : ValidTrace maxW s dones) :
    ∀ t ∈ submitStates maxW dones s, t.futures.length ≤ maxW := by
  induction dones generalizing s with
  | nil =>
    intro t ht
    rw [submitStates, List.scanl_nil, List.mem_singleton] at ht
    rw [ht]
    exact hs
  | cons d ds ih =>
    intro t ht
    rw [submitStates, List.scanl_cons, List.singleton_append, List.mem_cons] at ht
    rcases ht with ht | ht
    · rw [ht]
      exact hs
    · exact ih (submit_job maxW d s) (submit_job_length_le maxW d s hs hv.1) hv.2 t ht

/-- C2 witness: a run of four submissions at capacity 2 never tracks more
than 2 futures. -/
theorem C2_bounded_in_flight_witness :
    (runSubmits 2 [[], [], [0], [1]] initExec).futures.length ≤ 2 :=
  C2_bounded_in_flight 2 [[], [], [0], [1]] initExec (by decide)
    ⟨by decide, by decide, by decide, by decide, trivial⟩
    (runSubmits 2 [[], [], [0], [1]] initExec) (by decide)

/-! ## Claim C7 — admission control -/

/-- C7: at capacity, `submit_job` (after blocking in
`concurrent.futures.wait` until at least one in-flight job completes)
removes from the tracked list every handle the wait reported complete — not
just one — and then appends the newly submitted handle; below capacity it
submits immediately, only appending the new handle. -/
theorem C7_submit_admission (maxW : Nat) (done : List Nat) (s : ExecState) :
    (maxW ≤ s.futures.length →
      ∀ f, f ∈ (submit_job maxW done s).futures ↔
        ((f ∈ s.futures ∧ f ∉ done) ∨ f = s.nextId)) ∧
    (s.futures.length < maxW →
      (submit_job maxW done s).futures = s.futures ++ [s.nextId]) := by
  constructor
  · intro h f
    rw [submit_job_at_capacity _ _ _ h]
    simp only [List.mem_append, List.mem_filter, List.mem_singleton]
    constructor
    · rintro (⟨hf, hc⟩ | hf)
      · refine Or.inl ⟨hf, ?_⟩
        simpa [List.contains, List.elem_eq_mem] using hc
      · exact Or.inr hf
    · rintro (⟨hf, hc⟩ | hf)
      · exact Or.inl ⟨hf, by simp [List.contains, List.elem_eq_mem, hc]⟩
      · exact Or.inr hf
  · intro h
    rw [submit_job_below_capacity _ _ _ h]

/-- C7 witness: at capacity 2 with handle 3 reported complete, handle 3 is
drained, handle 7 stays, and the new handle 8 is appended; below capacity
the list is extended unchanged. -/
theorem C7_submit_admission_witness :
    (7 ∈ (submit_job 2 [3] ⟨[3, 7], [], [3, 7], 8⟩).futures) ∧
    (3 ∉ (submit_job 2 [3] ⟨[3, 7], [], [3, 7], 8⟩).futures) ∧
    (8 ∈ (submit_job 2 [3] ⟨[3, 7], [], [3, 7], 8⟩).futures) ∧
    (submit_job 3 [] ⟨[3, 7], [], [3, 7], 8⟩).futures = [3, 7, 8] := by
  have h := C7_submit_admission 2 [3] ⟨[3, 7], [], [3, 7], 8⟩
  have h2 := C7_submit_admission 3 [] ⟨[3, 7], [], [3, 7], 8⟩
  refine ⟨(h.1 (by decide) 7).mpr (Or.inl ⟨by decide, by decide⟩), ?_,
    (h.1 (by decide) 8).mpr (Or.inr rfl), h2.2 (by decide)⟩
  intro hm
  rcases (h.1 (by decide) 3).mp hm with ⟨h3, h4⟩ | h3
  · exact h4 (by decide)
  · exact absurd h3 (by decide)

/-! ## Claim C8 — completion barrier -/

/-- C8: when `wait_completion` returns, every job ever submitted has
completed: each submitted handle is either among the tracked futures that
`wait_completion` blocks on, or was reported complete by some earlier
`concurrent.futures.wait` call (i.e. it appears in one of the `done` sets)
before being drained from the tracked list. -/
theorem C8_wait_completion_covers (maxW : Nat) (dones : List (List Nat)) (x : Nat)
    (h : x ∈ (runSubmits maxW dones initExec).submitted) :
    x ∈ wait_completion (runSubmits maxW dones initExec) ∨ x ∈ dones.flatten := by
  rcases runSubmits_inv maxW dones initExec
      (fun y hy => absurd hy (List.not_mem_nil y)) x h with h1 | h1
  · exact Or.inl h1
  · rcases runSubmits_drained_sub maxW dones initExec x h1 with h2 | h2
    · exact absurd h2 (List.not_mem_nil x)
    · exact Or.inr h2

/-- C8 witness: in a saturated run at capacity 1, the drained handle 0 was
reported complete and the still-tracked handle 1 is waited on. -/
theorem C8_wait_completion_covers_witness :
    (0 ∈ wait_completion (runSubmits 1 [[], [0]] initExec) ∨ 0 ∈ [[], [0]].flatten) ∧
    (1 ∈ wait_completion (runSubmits 1 [[], [0]] initExec) ∨ 1 ∈ [[], [0]].flatten) :=
  ⟨C8_wait_completion_covers 1 [[], [0]] 0 (by decide),
   C8_wait_completion_covers 1 [[], [0]] 1 (by decide)⟩

/-! ## Claim C9 — failure-log locking -/

/-- C9 (code bug): the claim — and `WRITE_LOCK` at main.py line 13 together
with the `global WRITE_LOCK` declaration in `download_file` (line 149) —
say every failure-log append happens under mutual exclusion, but neither
`write_failed_downloads` nor `write_failed_folder` ever acquires the lock:
their event traces contain no acquire, so concurrent appends from worker
threads are not serialized by the program. -/
theorem C9_append_without_lock (fid nm err : Str) :
    LogEvent.acquire ∉ write_failed_downloads fid nm err ∧
    LogEvent.acquire ∉ write_failed_folder fid nm err := by
  constructor <;> simp [write_failed_downloads, write_failed_folder]

/-! ## Claim C3 — traversal isolation of listing failures -/

/-- C3: a folder entry whose recursive listing raises `e` contributes — in
addition to the records of the part of its own subtree processed before the
failure — exactly one `failed_folders` record `(folder_id, local_path, e)`
carrying its remote id, the current local path, and the error text; its
sibling entries are still fully processed (their directories, download jobs
and failure records are all produced), so a listing failure in one subtree
never aborts the traversal. -/
theorem C3_listing_failure_isolated (fid fname : Str) (fch : List RNode) (e : Str)
    (rest : List RNode) (lp : Str) (st : MirrorState) :
    (processItems (.folder fid fname fch (some e) :: rest) lp st).failedFolders
      = st.failedFolders ++ specFailures fch (joinPath lp fname)
          ++ [(fid, lp, e)] ++ specFailures rest lp ∧
    (processItems (.folder fid fname fch (some e) :: rest) lp st).jobs
      = st.jobs ++ specJobs fch (joinPath lp fname) ++ specJobs rest lp ∧
    (processItems (.folder fid fname fch (some e) :: rest) lp st).dirs
      = st.dirs ++ joinPath lp fname
          :: (specDirs fch (joinPath lp fname) ++ specDirs rest lp) := by
  rw [processItems_spec]
  refine ⟨?_, ?_, ?_⟩
  · rw [specFailures_folder]
    simp [List.append_assoc]
  · rw [specJobs_folder]
    simp [List.append_assoc]
  · rw [specDirs_folder]

/-! ## Download-protocol characterization -/

lemma downloadBody_spec (env : DownloadEnv) (fid fp : Str) (fs : FS)
    (log : List (Str × Str × Str)) (temp fin : Str) (mode : FetchMode)
    (hft : fin ≠ temp) :
    (∀ e, (downloadBody env fid fp fs log temp fin mode).outcome = .failed e →
      (downloadBody env fid fp fs log temp fin mode).log = log ++ [(fid, fp, e)] ∧
      ∀ p, p ≠ temp →
        (downloadBody env fid fp fs log temp fin mode).fs.contains p = fs.contains p) ∧
    ((downloadBody env fid fp fs log temp fin mode).outcome = .success →
      (downloadBody env fid fp fs log temp fin mode).fs.lookup fin
          = some env.chunks.flatten ∧
      (downloadBody env fid fp fs log temp fin mode).fs.contains temp = false ∧
      ∀ p, p ≠ fin → p ≠ temp →
        (downloadBody env fid fp fs log temp fin mode).fs.contains p = fs.contains p) := by
  unfold downloadBody
  cases ho : env.openErr with
  | some e0 =>
    refine ⟨?_, ?_⟩
    · intro e he
      injection he with he'
      subst he'
      exact ⟨rfl, fun p _ => rfl⟩
    · intro hsucc
      cases hsucc
  | none =>
    cases hf : env.fetchErr with
    | some e0 =>
      refine ⟨?_, ?_⟩
      · intro e he
        injection he with he'
        subst he'
        refine ⟨rfl, fun p hp => ?_⟩
        rw [FS.contains, FS.contains, FS.lookup_write, if_neg hp]
      · intro hsucc
        cases hsucc
    | none =>
      cases hr : env.renameErr with
      | some e0 =>
        refine ⟨?_, ?_⟩
        · intro e he
          injection he with he'
          subst he'
          refine ⟨rfl, fun p hp => ?_⟩
          rw [FS.contains, FS.contains, FS.lookup_write, if_neg hp]
        · intro hsucc
          cases hsucc
      | none =>
        refine ⟨?_, ?_⟩
        · intro e he
          cases he
        · intro _
          refine ⟨?_, ?_, ?_⟩
          · exact FS.lookup_rename_new _ _ _ _ (by rw [FS.lookup_write, if_pos rfl])
          · exact FS.contains_rename_old _ _ _ (fun hh => hft hh.symm)
          · intro p hpf hpt
            rw [FS.contains, FS.contains,
              FS.lookup_rename_of_ne _ _ _ _ hpt hpf, FS.lookup_write, if_neg hpt]

lemma download_file_sanitize_err (env : DownloadEnv) (fid fp mime : Str) (fs : FS)
    (log : List (Str × Str × Str)) {e0 : Str} (hs : sanitize_path fp = .error e0) :
    download_file env fid fp mime fs log
      = ⟨fs, log ++ [(fid, fp, e0)], .failed e0, 0, none, none⟩ := by
  unfold download_file
  rw [hs]

lemma download_file_skip (env : DownloadEnv) (fid fp mime : Str) (fs : FS)
    (log : List (Str × Str × Str)) {sp : PyPath} (hs : sanitize_path fp = .ok sp)
    (hc : fs.contains (renderPath sp) = true) :
    download_file env fid fp mime fs log = ⟨fs, log, .skipped, 0, none, none⟩ := by
  unfold download_file
  simp only [hs, hc, if_true]

lemma download_file_gerr (env : DownloadEnv) (fid fp mime : Str) (fs : FS)
    (log : List (Str × Str × Str)) {sp : PyPath} {e1 : Str}
    (hs : sanitize_path fp = .ok sp) (hc : fs.contains (renderPath sp) = false)
    (hg : isGoogleDoc mime = true) (hw : sp.withSuffix ".pdf".toList = .error e1) :
    download_file env fid fp mime fs log
      = ⟨fs, log ++ [(fid, fp, e1)], .failed e1, 1, some .export, none⟩ := by
  unfold download_file
  simp only [hs, hc, hg, hw, Bool.false_eq_true, if_false, if_true]

lemma download_file_gdoc (env : DownloadEnv) (fid fp mime : Str) (fs : FS)
    (log : List (Str × Str × Str)) {sp spp : PyPath}
    (hs : sanitize_path fp = .ok sp) (hc : fs.contains (renderPath sp) = false)
    (hg : isGoogleDoc mime = true) (hw : sp.withSuffix ".pdf".toList = .ok spp) :
    download_file env fid fp mime fs log
      = downloadBody env fid fp fs log (renderPath sp ++ ".temp".toList)
          (renderPath spp) .export := by
  unfold download_file
  simp only [hs, hc, hg, hw, Bool.false_eq_true, if_false, if_true]

lemma download_file_direct (env : DownloadEnv) (fid fp mime : Str) (fs : FS)
    (log : List (Str × Str × Str)) {sp : PyPath}
    (hs : sanitize_path fp = .ok sp) (hc : fs.contains (renderPath sp) = false)
    (hg : isGoogleDoc mime = false) :
    download_file env fid fp mime fs log
      = downloadBody env fid fp fs log (renderPath sp ++ ".temp".toList)
          (renderPath sp) .direct := by
  unfold download_file
  simp only [hs, hc, hg, Bool.false_eq_true, if_false]

lemma tempPathOf_ok {fp : Str} {sp : PyPath} (hs : sanitize_path fp = .ok sp) :
    tempPathOf fp = some (renderPath sp ++ ".temp".toList) := by
  unfold tempPathOf
  rw [hs]

lemma finalDestOf_gdoc {fp mime : Str} {sp spp : PyPath}
    (hs : sanitize_path fp = .ok sp) (hg : isGoogleDoc mime = true)
    (hw : sp.withSuffix ".pdf".toList = .ok spp) :
    finalDestOf fp mime = some (renderPath spp) := by
  unfold finalDestOf
  simp only [hs, hg, hw, if_true]

lemma finalDestOf_direct {fp mime : Str} {sp : PyPath}
    (hs : sanitize_path fp = .ok sp) (hg : isGoogleDoc mime = false) :
    finalDestOf fp mime = some (renderPath sp) := by
  unfold finalDestOf
  simp only [hs, hg, Bool.false_eq_true, if_false]

/-! ## Claim C1 — atomic download, failure containment -/

/-- C1: for every download job, the final destination appears only through
the rename of the fully written temp file: if any stage (sanitizing, temp
open, chunked fetch/conversion, rename) raises, the job catches it, appends
exactly the record `(file_id, file_path, error)` to `failed_downloads`, and
changes the filesystem at most at the `.temp` path — in particular a final
destination that did not exist before still does not exist; on success the
final destination holds exactly the concatenation of the fetched chunks,
the temp file is gone, and nothing else changed.  The model's
`download_file` is total, so no exception propagates out of the job. -/
theorem C1_atomic_failure (env : DownloadEnv) (fid fp mime : Str) (fs : FS)
    (log : List (Str × Str × Str)) :
    (∀ e, (download_file env fid fp mime fs log).outcome = .failed e →
      (download_file env fid fp mime fs log).log = log ++ [(fid, fp, e)] ∧
      (∀ p, tempPathOf fp ≠ some p →
        (download_file env fid fp mime fs log).fs.contains p = fs.contains p) ∧
      (∀ d, finalDestOf fp mime = some d → fs.contains d = false →
        (download_file env fid fp mime fs log).fs.contains d = false)) ∧
    ((download_file env fid fp mime fs log).outcome = .success →
      ∀ d t, finalDestOf fp mime = some d → tempPathOf fp = some t →
        (download_file env fid fp mime fs log).fs.lookup d = some env.chunks.flatten ∧
        (download_file env fid fp mime fs log).fs.contains t = false ∧
        (∀ p, p ≠ d → p ≠ t →
          (download_file env fid fp mime fs log).fs.contains p = fs.contains p)) := by
  cases hs : sanitize_path fp with
  | error e0 =>
    rw [download_file_sanitize_err env fid fp mime fs log hs]
    constructor
    · intro e he
      injection he with he'
      subst he'
      refine ⟨rfl, fun p _ => rfl, fun d hd _ => ?_⟩
      unfold finalDestOf at hd
      rw [hs] at hd
      cases hd
    · intro hsucc
      cases hsucc
  | ok sp =>
    have htemp := tempPathOf_ok hs
    cases hcont : fs.contains (renderPath sp) with
    | true =>
      rw [download_file_skip env fid fp mime fs log hs hcont]
      constructor
      · intro e he
        simp at he
      · intro hsucc
        simp at hsucc
    | false =>
      cases hg : isGoogleDoc mime with
      | false =>
        rw [download_file_direct env fid fp mime fs log hs hcont hg]
        have hfin := finalDestOf_direct hs hg
        have hne : renderPath sp ≠ renderPath sp ++ ".temp".toList :=
          (ne_append_temp [] (renderPath sp)).2
        obtain ⟨hfail, hsucc⟩ :=
          downloadBody_spec env fid fp fs log (renderPath sp ++ ".temp".toList)
            (renderPath sp) .direct hne
        constructor
        · intro e he
          obtain ⟨hlog, hfs⟩ := hfail e he
          refine ⟨hlog, ?_, ?_⟩
          · intro p hp
            exact hfs p (fun hpe => hp (by rw [htemp, hpe]))
          · intro d hd hd0
            rw [hfin] at hd
            injection hd with hd'
            subst hd'
            rw [hfs _ hne]
            exact hd0
        · intro hsc d t hd ht
          rw [hfin] at hd
          injection hd with hd'
          subst hd'
          rw [htemp] at ht
          injection ht with ht'
          subst ht'
          exact hsucc hsc
      | true =>
        cases hw : sp.withSuffix ".pdf".toList with
        | error e1 =>
          rw [download_file_gerr env fid fp mime fs log hs hcont hg hw]
          constructor
          · intro e he
            injection he with he'
            subst he'
            refine ⟨rfl, fun p _ => rfl, fun d hd _ => ?_⟩
            unfold finalDestOf at hd
            simp only [hs, hg, hw, if_true] at hd
            cases hd
          · intro hsucc
            cases hsucc
        | ok spp =>
          rw [download_file_gdoc env fid fp mime fs log hs hcont hg hw]
          have hfin := finalDestOf_gdoc hs hg hw
          have hne : renderPath spp ≠ renderPath sp ++ ".temp".toList :=
            finalDest_ne_temp hfin htemp
          obtain ⟨hfail, hsucc⟩ :=
            downloadBody_spec env fid fp fs log (renderPath sp ++ ".temp".toList)
              (renderPath spp) .export hne
          constructor
          · intro e he
            obtain ⟨hlog, hfs⟩ := hfail e he
            refine ⟨hlog, ?_, ?_⟩
            · intro p hp
              exact hfs p (fun hpe => hp (by rw [htemp, hpe]))
            · intro d hd hd0
              rw [hfin] at hd
              injection hd with hd'
              subst hd'
              rw [hfs _ hne]
              exact hd0
          · intro hsc d t hd ht
            rw [hfin] at hd
            injection hd with hd'
            subst hd'
            rw [htemp] at ht
            injection ht with ht'
            subst ht'
            exact hsucc hsc

/-- C1 witness: a fetch that fails after one chunk appends exactly one
`failed_downloads` record and leaves no file at the final destination. -/
theorem C1_atomic_failure_witness :
    (download_file ⟨none, [[1]], some "net".toList, none⟩ "id1".toList
        "./test/a.txt".toList "text/plain".toList ⟨[]⟩ []).log
      = [("id1".toList, "./test/a.txt".toList, "net".toList)] ∧
    (download_file ⟨none, [[1]], some "net".toList, none⟩ "id1".toList
        "./test/a.txt".toList "text/plain".toList ⟨[]⟩ []).fs.contains
        "test/a.txt".toList = false := by
  have h := (C1_atomic_failure ⟨none, [[1]], some "net".toList, none⟩ "id1".toList
    "./test/a.txt".toList "text/plain".toList ⟨[]⟩ []).1 "net".toList (by decide)
  exact ⟨h.1, h.2.2 "test/a.txt".toList (by decide) (by decide)⟩

lemma downloadBody_mode_created (env : DownloadEnv) (fid fp : Str) (fs : FS)
    (log : List (Str × Str × Str)) (temp fin : Str) (mode : FetchMode) :
    (downloadBody env fid fp fs log temp fin mode).fetchMode = some mode ∧
    (∀ d, (downloadBody env fid fp fs log temp fin mode).created = some d → d = fin) := by
  unfold downloadBody
  cases ho : env.openErr with
  | some e0 => exact ⟨rfl, fun d hd => nomatch hd⟩
  | none =>
    cases hf : env.fetchErr with
    | some e0 => exact ⟨rfl, fun d hd => nomatch hd⟩
    | none =>
      cases hr : env.renameErr with
      | some e0 => exact ⟨rfl, fun d hd => nomatch hd⟩
      | none =>
        refine ⟨rfl, fun d hd => ?_⟩
        injection hd with hd'
        exact hd'.symm

lemma append_drop_last4 (u : Str) :
    (u ++ ".pdf".toList).drop ((u ++ ".pdf".toList).length - 4) = ".pdf".toList := by
  rw [List.length_append]
  have h4 : (".pdf".toList).length = 4 := rfl
  rw [h4, Nat.add_sub_cancel]
  exact List.drop_left u _

/-! ## Claim C6 — conversion naming -/

/-- C6: a leaf whose mime type is a Google Workspace kind gets `.pdf`
appended to its destination name and is fetched by export-to-PDF, and any
file the job creates has a path ending in `.pdf`; an ordinary leaf keeps
its name unchanged (`data.csv` stays `data.csv`), is fetched directly
without conversion, and the created file is exactly the sanitized
destination. -/
theorem C6_conversion_naming (lp name mime fid : Str) (env : DownloadEnv)
    (fs : FS) (log : List (Str × Str × Str)) :
    (isGoogleDoc mime = true →
      leafDest lp name mime = joinPath lp (name ++ ".pdf".toList) ∧
      (∀ m, (download_file env fid (leafDest lp name mime) mime fs log).fetchMode = some m →
        m = .export) ∧
      (∀ d, (download_file env fid (leafDest lp name mime) mime fs log).created = some d →
        d.drop (d.length - 4) = ".pdf".toList)) ∧
    (isGoogleDoc mime = false →
      leafDest lp name mime = joinPath lp name ∧
      (∀ m, (download_file env fid (leafDest lp name mime) mime fs log).fetchMode = some m →
        m = .direct) ∧
      (∀ d sp, sanitize_path (leafDest lp name mime) = .ok sp →
        (download_file env fid (leafDest lp name mime) mime fs log).created = some d →
        d = renderPath sp)) := by
  constructor
  · intro hg
    refine ⟨by simp [leafDest, hg], ?_, ?_⟩
    all_goals
      cases hs : sanitize_path (leafDest lp name mime) with
      | error e0 =>
        rw [download_file_sanitize_err env fid (leafDest lp name mime) mime fs log hs]
        intro d hd
        cases hd
      | ok sp =>
        cases hcont : fs.contains (renderPath sp) with
        | true =>
          rw [download_file_skip env fid (leafDest lp name mime) mime fs log hs hcont]
          intro d hd
          cases hd
        | false =>
          cases hw : sp.withSuffix ".pdf".toList with
          | error e1 =>
            rw [download_file_gerr env fid (leafDest lp name mime) mime fs log hs hcont hg hw]
            first
              | (intro m hm; injection hm with hm'; exact hm'.symm)
              | (intro d hd; cases hd)
          | ok spp =>
            rw [download_file_gdoc env fid (leafDest lp name mime) mime fs log hs hcont hg hw]
            have hmc := downloadBody_mode_created env fid (leafDest lp name mime) fs log
              (renderPath sp ++ ".temp".toList) (renderPath spp) .export
            first
              | (intro m hm
                 rw [hmc.1] at hm
                 injection hm with hm'
                 exact hm'.symm)
              | (intro d hd
                 obtain ⟨x, hx⟩ := withSuffix_ok_shape hw
                 obtain ⟨pre, hpre⟩ :=
                   renderPath_concat (p := spp) (l := sp.tail.dropLast) (by rw [hx])
                 rw [hmc.2 d hd, hpre, ← List.append_assoc]
                 exact append_drop_last4 (pre ++ x))
  · intro hg
    refine ⟨by simp [leafDest, hg], ?_, ?_⟩
    · cases hs : sanitize_path (leafDest lp name mime) with
      | error e0 =>
        rw [download_file_sanitize_err env fid (leafDest lp name mime) mime fs log hs]
        intro m hm
        cases hm
      | ok sp =>
        cases hcont : fs.contains (renderPath sp) with
        | true =>
          rw [download_file_skip env fid (leafDest lp name mime) mime fs log hs hcont]
          intro m hm
          cases hm
        | false =>
          rw [download_file_direct env fid (leafDest lp name mime) mime fs log hs hcont hg]
          intro m hm
          rw [(downloadBody_mode_created env fid (leafDest lp name mime) fs log
            (renderPath sp ++ ".temp".toList) (renderPath sp) .direct).1] at hm
          injection hm with hm'
          exact hm'.symm
    · cases hs : sanitize_path (leafDest lp name mime) with
      | error e0 =>
        rw [download_file_sanitize_err env fid (leafDest lp name mime) mime fs log hs]
        intro d sp' hsp hd
        cases hd
      | ok sp =>
        cases hcont : fs.contains (renderPath sp) with
        | true =>
          rw [download_file_skip env fid (leafDest lp name mime) mime fs log hs hcont]
          intro d sp' hsp hd
          cases hd
        | false =>
          rw [download_file_direct env fid (leafDest lp name mime) mime fs log hs hcont hg]
          intro d sp' hsp hd
          injection hsp with hsp'
          rw [← hsp']
          exact (downloadBody_mode_created env fid (leafDest lp name mime) fs log
            (renderPath sp ++ ".temp".toList) (renderPath sp) .direct).2 d hd

/-- C6 witness: a Google document named `Report` is stored with a `.pdf`
destination whose created file path ends in `.pdf`, and an ordinary
`data.csv` keeps its name and is stored at its sanitized destination. -/
theorem C6_conversion_naming_witness :
    leafDest "./test".toList "Report".toList
        "application/vnd.google-apps.document".toList
      = joinPath "./test".toList ("Report".toList ++ ".pdf".toList) ∧
    ("test/Report.pdf".toList).drop (("test/Report.pdf".toList).length - 4)
      = ".pdf".toList ∧
    leafDest "./test".toList "data.csv".toList "text/csv".toList
      = joinPath "./test".toList "data.csv".toList ∧
    "test/data.csv".toList = renderPath ⟨false, ["test".toList, "data.csv".toList]⟩ := by
  have hg := (C6_conversion_naming "./test".toList "Report".toList
    "application/vnd.google-apps.document".toList "id".toList
    ⟨none, [[1]], none, none⟩ ⟨[]⟩ []).1 (by decide)
  have ho := (C6_conversion_naming "./test".toList "data.csv".toList "text/csv".toList
    "id".toList ⟨none, [[1]], none, none⟩ ⟨[]⟩ []).2 (by decide)
  exact ⟨hg.1, hg.2.2 "test/Report.pdf".toList (by decide), ho.1,
    ho.2.2 "test/data.csv".toList ⟨false, ["test".toList, "data.csv".toList]⟩
      (by decide) (by decide)⟩

/-! ## Claim C4 — idempotent skip -/

/-- The suffix of the sanitized destination, when the sanitizer succeeds. -/
def sanitizedSuffix (fp : Str) : Option Str :=
  match sanitize_path fp with
  | .ok sp => some sp.suffix
  | .error _ => none

/-- C4 (amended): (1) a job whose sanitized destination already exists
returns successfully with no fetch, no write, no rename, and no
failure-record append; (2) re-running a job the mirror produced (destination
`leafDest`) after it succeeded performs no fetch and leaves the filesystem
and its contents untouched — provided that, for a proprietary document, the
sanitized destination already carries the `.pdf` suffix (true for every
mirror job whose entry name has a nonempty final segment; the counterexample
shows the empty-name case re-fetching). -/
theorem C4_idempotent_skip :
    (∀ (env : DownloadEnv) (fid fp mime : Str) (fs : FS)
      (log : List (Str × Str × Str)) (sp : PyPath),
      sanitize_path fp = .ok sp → fs.contains (renderPath sp) = true →
      download_file env fid fp mime fs log = ⟨fs, log, .skipped, 0, none, none⟩) ∧
    (∀ (env env' : DownloadEnv) (fid fid' lp name mime : Str) (fs : FS)
      (log log' : List (Str × Str × Str)),
      (download_file env fid (leafDest lp name mime) mime fs log).outcome = .success →
      (isGoogleDoc mime = true →
        sanitizedSuffix (leafDest lp name mime) = some ".pdf".toList) →
      download_file env' fid' (leafDest lp name mime) mime
          (download_file env fid (leafDest lp name mime) mime fs log).fs log'
        = ⟨(download_file env fid (leafDest lp name mime) mime fs log).fs,
           log', .skipped, 0, none, none⟩) := by
  constructor
  · intro env fid fp mime fs log sp hs hc
    exact download_file_skip env fid fp mime fs log hs hc
  · intro env env' fid fid' lp name mime fs log log' hsucc hsfx
    cases hs : sanitize_path (leafDest lp name mime) with
    | error e0 =>
      rw [download_file_sanitize_err env fid (leafDest lp name mime) mime fs log hs] at hsucc
      cases hsucc
    | ok sp =>
      cases hcont : fs.contains (renderPath sp) with
      | true =>
        rw [download_file_skip env fid (leafDest lp name mime) mime fs log hs hcont] at hsucc
        cases hsucc
      | false =>
        have hne : renderPath sp ≠ renderPath sp ++ ".temp".toList :=
          (ne_append_temp [] (renderPath sp)).2
        cases hg : isGoogleDoc mime with
        | false =>
          rw [download_file_direct env fid (leafDest lp name mime) mime fs log hs hcont hg]
            at hsucc ⊢
          have hbody := (downloadBody_spec env fid (leafDest lp name mime) fs log
            (renderPath sp ++ ".temp".toList) (renderPath sp) .direct hne).2 hsucc
          have hc2 : (downloadBody env fid (leafDest lp name mime) fs log
              (renderPath sp ++ ".temp".toList) (renderPath sp) .direct).fs.contains
              (renderPath sp) = true := by
            rw [FS.contains, hbody.1]
            rfl
          exact download_file_skip env' fid' (leafDest lp name mime) mime _ log' hs hc2
        | true =>
          have hsfx' : sp.suffix = ".pdf".toList := by
            have h1 := hsfx hg
            unfold sanitizedSuffix at h1
            rw [hs] at h1
            injection h1
          have hwid : sp.withSuffix ".pdf".toList = .ok sp := withSuffix_id sp hsfx'
          rw [download_file_gdoc env fid (leafDest lp name mime) mime fs log hs hcont hg hwid]
            at hsucc ⊢
          have hbody := (downloadBody_spec env fid (leafDest lp name mime) fs log
            (renderPath sp ++ ".temp".toList) (renderPath sp) .export hne).2 hsucc
          have hc2 : (downloadBody env fid (leafDest lp name mime) fs log
              (renderPath sp ++ ".temp".toList) (renderPath sp) .export).fs.contains
              (renderPath sp) = true := by
            rw [FS.contains, hbody.1]
            rfl
          exact download_file_skip env' fid' (leafDest lp name mime) mime _ log' hs hc2

/-- C4 counterexample: a proprietary document whose name is empty is stored
at `test/.pdf.pdf`, but the existence check of a second run probes
`test/.pdf`, so the second run fetches again — the mirror's second run does
not perform zero fetch calls for this file even though its first run
succeeded. -/
theorem C4_idempotent_skip_cex :
    (download_file ⟨none, [[1]], none, none⟩ "id".toList
        (leafDest "./test".toList [] "application/vnd.google-apps.document".toList)
        "application/vnd.google-apps.document".toList ⟨[]⟩ []).outcome = .success ∧
    (download_file ⟨none, [[1]], none, none⟩ "id".toList
        (leafDest "./test".toList [] "application/vnd.google-apps.document".toList)
        "application/vnd.google-apps.document".toList
        (download_file ⟨none, [[1]], none, none⟩ "id".toList
          (leafDest "./test".toList [] "application/vnd.google-apps.document".toList)
          "application/vnd.google-apps.document".toList ⟨[]⟩ []).fs []).fetchCalls = 1 := by
  decide

/-- C4 witness: an already-present `data.csv` is skipped with no I/O, and a
successfully mirrored Google document named `Report` is skipped with zero
fetch calls on the second run. -/
theorem C4_idempotent_skip_witness :
    download_file ⟨none, [[1]], none, none⟩ "id".toList "./test/data.csv".toList
        "text/csv".toList ⟨[("test/data.csv".toList, [7])]⟩ []
      = ⟨⟨[("test/data.csv".toList, [7])]⟩, [], .skipped, 0, none, none⟩ ∧
    download_file ⟨none, [[2]], none, none⟩ "id2".toList
        (leafDest "./test".toList "Report".toList
          "application/vnd.google-apps.document".toList)
        "application/vnd.google-apps.document".toList
        (download_file ⟨none, [[1]], none, none⟩ "id".toList
          (leafDest "./test".toList "Report".toList
            "application/vnd.google-apps.document".toList)
          "application/vnd.google-apps.document".toList ⟨[]⟩ []).fs []
      = ⟨(download_file ⟨none, [[1]], none, none⟩ "id".toList
          (leafDest "./test".toList "Report".toList
            "application/vnd.google-apps.document".toList)
          "application/vnd.google-apps.document".toList ⟨[]⟩ []).fs,
         [], .skipped, 0, none, none⟩ := by
  refine ⟨C4_idempotent_skip.1 _ _ _ _ _ _
    ⟨false, ["test".toList, "data.csv".toList]⟩ (by decide) (by decide), ?_⟩
  exact C4_idempotent_skip.2 _ _ _ _ _ _ _ _ _ _ (by decide) (by decide)

/-- C9 witness: a concrete failure record is appended with no lock
acquisition in its event trace. -/
theorem C9_append_without_lock_witness :
    LogEvent.acquire ∉ write_failed_downloads "f1".toList "test/a".toList "err".toList ∧
    LogEvent.acquire ∉ write_failed_folder "f2".toList "test".toList "err".toList :=
  ⟨(C9_append_without_lock "f1".toList "test/a".toList "err".toList).1,
   (C9_append_without_lock "f2".toList "test".toList "err".toList).2⟩
